import Mathlib

/-!
Verification of the rosbag-engine core: a shallow embedding of the
time algebra, the MCAP unindexed iterable source, the iterator cursor,
the cached filelike read path, the connection scheduler, the channel
parser and the memory estimator, with theorems settling the spec claims.

Conventions of the embedding:
* JS numbers appearing as byte counts or ids are modelled as `Nat`/`Int`;
  `NaN` (which arises from `Math.max(x, undefined)`) is modelled by `none`
  in an `Option` type.
* JS `Map` iteration order is insertion order; maps are modelled as
  association lists where `set` keeps the original position of a key.
* Async iterators are modelled as the list of items they would yield;
  a cursor holds the remaining list.  Decoded message payloads are not
  modelled (no claim inspects them).
-/

namespace Studio

/-- Time from @foxglove/rostime: seconds and nanoseconds.  Both components
are JS numbers; the embedding uses `Int` for both. -/
structure Time where
  sec : Int
  nsec : Int
deriving DecidableEq

/-- rostime `compare`: `a.sec - b.sec || a.nsec - b.nsec` (the JS `||`
returns the second operand exactly when the first is `0`). -/
def timeCompare (a b : Time) : Int :=
  if a.sec - b.sec = 0 then a.nsec - b.nsec else a.sec - b.sec

/-- rostime `isLessThan`. -/
def isLessThan (a b : Time) : Bool := timeCompare a b < 0

/-- rostime `isGreaterThan`. -/
def isGreaterThan (a b : Time) : Bool := timeCompare a b > 0

/-- rostime `isTimeInRangeInclusive t start end`. -/
def isTimeInRangeInclusive (t s e : Time) : Bool :=
  timeCompare t s ≥ 0 && timeCompare t e ≤ 0

/-- rostime `fromNanoSec` (BigInt division by 1e9). -/
def fromNanoSec (n : Nat) : Time :=
  ⟨(n : Int) / 1000000000, (n : Int) % 1000000000⟩

/-- rostime `add` followed by normalization of the nanosecond carry
(all uses in this development have non-negative nanoseconds). -/
def addTime (a b : Time) : Time :=
  ⟨a.sec + b.sec + (a.nsec + b.nsec) / 1000000000, (a.nsec + b.nsec) % 1000000000⟩

/-- Non-strict receive-time order used by the sort comparators. -/
def timeLe (a b : Time) : Prop := timeCompare a b ≤ 0

instance (a b : Time) : Decidable (timeLe a b) := by
  unfold timeLe; infer_instance

theorem timeLe_total (a b : Time) : timeLe a b ∨ timeLe b a := by
  rcases a with ⟨as, an⟩; rcases b with ⟨bs, bn⟩
  simp only [timeLe, timeCompare]
  split_ifs <;> omega

theorem timeLe_trans (a b c : Time) : timeLe a b → timeLe b c → timeLe a c := by
  rcases a with ⟨as, an⟩; rcases b with ⟨bs, bn⟩; rcases c with ⟨cs, cn⟩
  simp only [timeLe, timeCompare]
  split_ifs <;> omega

/-- A decoded message event.  `publishTime` is absent on the bag path and
present on the MCAP path, hence optional.  `sizeInBytes` is a JS number
that can be `NaN` (modelled `none`): `Math.max(wire, undefined) = NaN`.
The decoded payload itself is not modelled. -/
structure MessageEvent where
  topic : String
  receiveTime : Time
  publishTime : Option Time
  sizeInBytes : Option Int
  schemaName : String
deriving DecidableEq

namespace McapUnindexedIterableSource

/-- State of an MCAP unindexed source after its setup completed:
`#msgEventsByChannel` (a JS Map in insertion order) plus `#start`/`#end`. -/
structure Source where
  msgEventsByChannel : List (Int × List MessageEvent)
  startTime : Option Time
  endTime : Option Time
deriving DecidableEq

/-- Arguments of `messageIterator`: the topic-selection keys and the
optional start/end bounds. -/
structure MessageIteratorArgs where
  topics : List String
  start : Option Time
  stop : Option Time
deriving DecidableEq

/-- An item pushed by `messageIterator` (always `type: 'message-event'`). -/
structure IterItem where
  connectionId : Int
  msgEvent : MessageEvent
deriving DecidableEq

/-- Comparator of `resultMessages.sort`: `compare(a.msgEvent.receiveTime,
b.msgEvent.receiveTime)`, as the non-strict order fed to a stable sort. -/
def itemLe (a b : IterItem) : Prop :=
  timeLe a.msgEvent.receiveTime b.msgEvent.receiveTime

instance : DecidableRel itemLe := fun a b => by
  unfold itemLe; infer_instance

instance : IsTotal IterItem itemLe :=
  ⟨fun _ _ => timeLe_total _ _⟩

instance : IsTrans IterItem itemLe :=
  ⟨fun _ _ _ => timeLe_trans _ _ _⟩

/-- `McapUnindexedIterableSource.messageIterator`: default the bounds from
the source, yield nothing for an empty selection or missing bounds, filter
each channel's stored events by inclusive time range and topic membership,
then sort stably by receive time (JS `Array.prototype.sort` is stable;
modelled by insertion sort, which is stable). -/
def messageIterator (src : Source) (args : MessageIteratorArgs) : List IterItem :=
  match args.start.orElse (fun _ => src.startTime),
        args.stop.orElse (fun _ => src.endTime) with
  | some s, some e =>
    if args.topics.length = 0 then []
    else
      let collected :=
        src.msgEventsByChannel.foldr
          (fun ce acc =>
            ((ce.2.filter fun ev =>
                isTimeInRangeInclusive ev.receiveTime s e
                  && args.topics.contains ev.topic).map
              fun ev => (⟨ce.1, ev⟩ : IterItem)) ++ acc)
          []
    List.insertionSort itemLe collected
  | _, _ => []

/-- The running `startTime`/`endTime` updates of `processRecord` for the
`Message` case: replace when unset or strictly improved. -/
def updateStartEnd (acc : Option Time × Option Time) (t : Time) :
    Option Time × Option Time :=
  ⟨(match acc.1 with
    | none => some t
    | some s => if isLessThan t s then some t else some s),
   (match acc.2 with
    | none => some t
    | some e => if isGreaterThan t e then some t else some e)⟩

/-- Setup of a source from a single channel whose `Message` records carry
the given log times (ns), as `McapUnindexedIterableSource` setup stores
them: events in file order, `receiveTime = fromNanoSec logTime`,
`sizeInBytes = Math.max(wireLen, estimate)`, start/end folded per record. -/
def sourceOfLogTimes (cid : Int) (topic : String) (logTimes : List Nat) : Source :=
  let evs := logTimes.map fun n =>
    ({ topic := topic, receiveTime := fromNanoSec n,
       publishTime := some (fromNanoSec n), sizeInBytes := some 0,
       schemaName := "" } : MessageEvent)
  let se := (logTimes.map fromNanoSec).foldl updateStartEnd (none, none)
  { msgEventsByChannel := [(cid, evs)], startTime := se.1, endTime := se.2 }

/-- JS `Map.set` on an association list: an existing key keeps its original
insertion position and gets the new value; a new key is appended. -/
def mapSet (m : List (String × MessageEvent)) (k : String) (v : MessageEvent) :
    List (String × MessageEvent) :=
  match m with
  | [] => [(k, v)]
  | (k', v') :: rest =>
    if k' = k then (k', v) :: rest else (k', v') :: mapSet rest k v

/-- JS `Map.get` on an association list. -/
def mapGet (m : List (String × MessageEvent)) (k : String) : Option MessageEvent :=
  match m with
  | [] => none
  | (k', v') :: rest => if k' = k then some v' else mapGet rest k

/-- All stored events in iteration order: channels in map insertion order,
then each channel's events in file order. -/
def flatEvents (src : Source) : List MessageEvent :=
  src.msgEventsByChannel.foldr (fun ce acc => ce.2 ++ acc) []

/-- The filter of `getBackfillMessages`:
`compare(msgEvent.receiveTime, args.time) <= 0 && needTopics.has(topic)`. -/
def backfillCond (topics : List String) (time : Time) (ev : MessageEvent) : Bool :=
  timeCompare ev.receiveTime time ≤ 0 && topics.contains ev.topic

/-- One step of the `getBackfillMessages` loop body. -/
def backfillStep (topics : List String) (time : Time)
    (m : List (String × MessageEvent)) (ev : MessageEvent) :
    List (String × MessageEvent) :=
  if backfillCond topics time ev then mapSet m ev.topic ev else m

/-- The `msgEventsByTopic` map after the `getBackfillMessages` loop. -/
def backfillMap (src : Source) (topics : List String) (time : Time) :
    List (String × MessageEvent) :=
  (flatEvents src).foldl (backfillStep topics time) []

/-- `McapUnindexedIterableSource.getBackfillMessages`: walk every stored
event in iteration order, keep the last matching one per topic in a JS
Map, return `[...map.values()]`. -/
def getBackfillMessages (src : Source) (topics : List String) (time : Time) :
    List MessageEvent :=
  (backfillMap src topics time).map Prod.snd

/-- The last stored event in iteration order whose topic is `t`, whose
receive time is at most `time`, with `t` among the requested topics. -/
def lastMatch (topics : List String) (time : Time) (t : String) :
    List MessageEvent → Option MessageEvent
  | [] => none
  | ev :: rest =>
    match lastMatch topics time t rest with
    | some v => some v
    | none =>
      if backfillCond topics time ev = true ∧ ev.topic = t then some ev else none

theorem mapGet_mapSet (m : List (String × MessageEvent)) (k k' : String)
    (v : MessageEvent) :
    mapGet (mapSet m k v) k' = if k = k' then some v else mapGet m k' := by
  induction m with
  | nil => simp [mapSet, mapGet]
  | cons hd tl ih =>
    rcases hd with ⟨k'', v''⟩
    simp only [mapSet]
    by_cases h1 : k'' = k
    · subst h1
      rw [if_pos rfl]
      simp only [mapGet]
      by_cases h2 : k'' = k'
      · simp [h2]
      · simp [h2, mapGet]
    · rw [if_neg h1]
      simp only [mapGet]
      by_cases h2 : k'' = k'
      · rw [if_pos h2, if_neg (by rw [← h2]; exact fun h => h1 h.symm)]
        simp [mapGet, h2]
      · rw [if_neg h2, if_neg h2, ih]

theorem backfill_fold_lookup (topics : List String) (time : Time)
    (evs : List MessageEvent) (m : List (String × MessageEvent)) (t : String) :
    mapGet (evs.foldl (backfillStep topics time) m) t
      = match lastMatch topics time t evs with
        | some v => some v
        | none => mapGet m t := by
  induction evs generalizing m with
  | nil => simp [lastMatch]
  | cons ev rest ih =>
    simp only [List.foldl_cons, lastMatch]
    rw [ih]
    cases hrest : lastMatch topics time t rest with
    | some v => simp
    | none =>
      simp only [backfillStep]
      by_cases hc : backfillCond topics time ev = true
      · simp only [hc, if_true, mapGet_mapSet]
        split_ifs with h1 h2 h3 <;> simp_all
      · simp only [hc]
        split_ifs with h1 <;> simp_all

end McapUnindexedIterableSource

open McapUnindexedIterableSource in
/-- C1: for every MCAP unindexed source and every `messageIterator` call,
consecutive yielded message-event items have non-decreasing
`msgEvent.receiveTime`; a file with messages on one selected topic logged
at 5, 3, 4, 2 ns yields receive times `(0,2), (0,3), (0,4), (0,5)`; and an
empty topic selection yields no items. -/
theorem mcap_messageIterator_sorted_c1 :
    (∀ (src : Source) (args : MessageIteratorArgs),
      List.Chain' itemLe (messageIterator src args))
    ∧ ((messageIterator (sourceOfLogTimes 0 "/a" [5, 3, 4, 2])
          ⟨["/a"], none, none⟩).map fun i => i.msgEvent.receiveTime)
        = [⟨0, 2⟩, ⟨0, 3⟩, ⟨0, 4⟩, ⟨0, 5⟩]
    ∧ ∀ (src : Source) (s e : Option Time),
        messageIterator src ⟨[], s, e⟩ = [] := by
  refine ⟨fun src args => ?_, by decide, fun src s e => ?_⟩
  · unfold messageIterator
    split
    · split
      · exact List.chain'_nil
      · exact List.chain'_iff_pairwise.mpr
          (List.sorted_insertionSort itemLe _)
    · exact List.chain'_nil
  · unfold messageIterator
    split
    · simp
    · rfl

namespace McapUnindexedIterableSource

/-- A stored event at `(0, n)` ns on `topic` (payload-independent fields). -/
def mkEv (topic : String) (n : Int) : MessageEvent :=
  ⟨topic, ⟨0, n⟩, none, some 0, ""⟩

/-- A source whose single channel stores `/a` events at times 5 then 2
(file order is not time order in an unindexed MCAP). -/
def srcStoreNotSorted : Source :=
  ⟨[(0, [mkEv "/a" 5, mkEv "/a" 2])], some ⟨0, 2⟩, some ⟨0, 5⟩⟩

/-- A source with `/a` at time 5 on channel 0 and `/b` at time 2 on
channel 1. -/
def srcTwoTopics : Source :=
  ⟨[(0, [mkEv "/a" 5]), (1, [mkEv "/b" 2])], some ⟨0, 2⟩, some ⟨0, 5⟩⟩

/-- The scenario-S3 source: `/a` at times 1, 3, 7 and `/b` at 2, 5. -/
def srcS3 : Source :=
  ⟨[(0, [mkEv "/a" 1, mkEv "/a" 3, mkEv "/a" 7]),
    (1, [mkEv "/b" 2, mkEv "/b" 5])], some ⟨0, 1⟩, some ⟨0, 7⟩⟩

end McapUnindexedIterableSource

open McapUnindexedIterableSource in
/-- C2 counterexample: with `/a` events stored in file order 5, 2 (times),
backfill at time `(0,10)` returns the event at `(0,2)` although the stored
event at `(0,5)` also qualifies and is strictly later, so the result is not
the latest matching event; and with `/a@5`, `/b@2` the returned list is
`[(0,5), (0,2)]`, which is not sorted by receive time. -/
theorem mcap_getBackfillMessages_c2_counterexample :
    ((getBackfillMessages srcStoreNotSorted ["/a"] ⟨0, 10⟩).map
        fun e => e.receiveTime) = [⟨0, 2⟩]
    ∧ mkEv "/a" 5 ∈ flatEvents srcStoreNotSorted
    ∧ (mkEv "/a" 5).topic = "/a"
    ∧ timeCompare (mkEv "/a" 5).receiveTime ⟨0, 10⟩ ≤ 0
    ∧ timeCompare ⟨0, 2⟩ (mkEv "/a" 5).receiveTime < 0
    ∧ ((getBackfillMessages srcTwoTopics ["/a", "/b"] ⟨0, 10⟩).map
        fun e => e.receiveTime) = [⟨0, 5⟩, ⟨0, 2⟩]
    ∧ timeCompare ⟨0, 5⟩ ⟨0, 2⟩ > 0 := by
  decide

open McapUnindexedIterableSource in
/-- C2 amended: `getBackfillMessages` returns the values of a map that
holds, for each requested topic with at least one stored event with
receive time at most `time`, the last such stored event in iteration
order (not necessarily the one with maximal receive time); the list is in
topic first-match order, not sorted by receive time.  On the S3 example
the result is `/a@3, /b@2`. -/
theorem mcap_getBackfillMessages_c2_amended :
    (∀ (src : Source) (topics : List String) (time : Time) (t : String),
      mapGet (backfillMap src topics time) t
          = lastMatch topics time t (flatEvents src)
        ∧ getBackfillMessages src topics time
          = (backfillMap src topics time).map Prod.snd)
    ∧ ((getBackfillMessages srcS3 ["/a", "/b"] ⟨0, 4⟩).map
        fun e => (e.topic, e.receiveTime)) = [("/a", ⟨0, 3⟩), ("/b", ⟨0, 2⟩)] := by
  refine ⟨fun src topics time t => ⟨?_, rfl⟩, by decide⟩
  have h := backfill_fold_lookup topics time (flatEvents src) [] t
  unfold backfillMap
  rw [h]
  cases lastMatch topics time t (flatEvents src) <;> simp [mapGet]

namespace IteratorCursor

/-- An item of the iterator stream: `message-event`, `stamp` or `problem`
(only the fields the cursor inspects are modelled). -/
inductive IterResult where
  | messageEvent (connectionId : Int) (msgEvent : MessageEvent)
  | stamp (t : Time)
  | problem (connectionId : Int)
deriving DecidableEq

/-- Cursor state: the wrapped single-pass iterator (as its remaining
items), the stashed `#lastIteratorResult`, and the abort signal's state
(constant in this sequential model). -/
structure CursorState where
  items : List IterResult
  lastIteratorResult : Option IterResult
  aborted : Bool
deriving DecidableEq

/-- `IteratorCursor.next`: undefined when aborted, else one pull. -/
def next (s : CursorState) : Option IterResult × CursorState :=
  if s.aborted then (none, s)
  else
    match s.items with
    | [] => (none, s)
    | x :: xs => (some x, { s with items := xs })

/-- The `switch` computing the batch cutoff base time (`TIME_ZERO` for the
unreachable `problem` case). -/
def timeOf : IterResult → Time
  | .stamp t => t
  | .messageEvent _ m => m.receiveTime
  | .problem _ => ⟨0, 0⟩

/-- `result.type === 'problem'`. -/
def isProblem : IterResult → Bool
  | .problem _ => true
  | _ => false

/-- The `nextBatch` loop's break test on times: `compare(・, cutoffTime) > 0`. -/
def exceedsCutoff (r : IterResult) (cutoff : Time) : Bool :=
  match r with
  | .stamp t => timeCompare t cutoff > 0
  | .messageEvent _ m => timeCompare m.receiveTime cutoff > 0
  | .problem _ => false

/-- The `for (;;)` loop of `nextBatch`: pull, push, break after a problem
or an item past the cutoff; returns the pushed items and what remains. -/
def nextBatchLoop (cutoff : Time) : List IterResult → List IterResult × List IterResult
  | [] => ([], [])
  | r :: rest =>
    if isProblem r || exceedsCutoff r cutoff then ([r], rest)
    else
      let p := nextBatchLoop cutoff rest
      (r :: p.1, p.2)

/-- `IteratorCursor.nextBatch(durationMs)`: undefined when the first pull
yields nothing; a singleton for a leading problem; otherwise the first
item plus the loop's items up to `first.time + durationMs`. -/
def nextBatch (s : CursorState) (durationMs : Int) :
    Option (List IterResult) × CursorState :=
  match next s with
  | (none, s1) => (none, s1)
  | (some first, s1) =>
    if isProblem first then (some [first], s1)
    else
      let cutoff := addTime (timeOf first) ⟨0, durationMs * 1000000⟩
      let p := nextBatchLoop cutoff s1.items
      (some (first :: p.1), { s1 with items := p.2 })

/-- The guard under which an item is stashed rather than returned by
`readUntil(end)`: stamps at or past `end`, message events strictly past
`end`. -/
def stashBlocks (r : IterResult) (endT : Time) : Bool :=
  match r with
  | .stamp t => timeCompare t endT ≥ 0
  | .messageEvent _ m => timeCompare m.receiveTime endT > 0
  | .problem _ => false

/-- The `for (;;)` loop of `readUntil`: push items until one is stashed or
the iterator is exhausted; returns pushed items, new stash, remainder. -/
def readUntilLoop (endT : Time) :
    List IterResult → List IterResult × Option IterResult × List IterResult
  | [] => ([], none, [])
  | r :: rest =>
    if stashBlocks r endT then ([], some r, rest)
    else
      let p := readUntilLoop endT rest
      (r :: p.1, p.2.1, p.2.2)

/-- `IteratorCursor.readUntil(end)`: undefined when aborted; an empty
array when the stash still exceeds `end`; otherwise the stash (if any)
followed by the loop's items. -/
def readUntil (s : CursorState) (endT : Time) :
    Option (List IterResult) × CursorState :=
  if s.aborted then (none, s)
  else
    match s.lastIteratorResult with
    | some v =>
      if stashBlocks v endT then (some [], s)
      else
        let p := readUntilLoop endT s.items
        (some (v :: p.1), { s with lastIteratorResult := p.2.1, items := p.2.2 })
    | none =>
      let p := readUntilLoop endT s.items
      (some p.1, { s with lastIteratorResult := p.2.1, items := p.2.2 })

/-- `IteratorCursor.end`: invokes the iterator's return hook, after which
every pull reports exhaustion; the stash and abort state are untouched. -/
def endCursor (s : CursorState) : CursorState := { s with items := [] }

theorem readUntilLoop_spec (endT : Time) (l : List IterResult) :
    (∀ r ∈ (readUntilLoop endT l).1, stashBlocks r endT = false)
    ∧ l = (readUntilLoop endT l).1 ++ (readUntilLoop endT l).2.1.toList
            ++ (readUntilLoop endT l).2.2
    ∧ ∀ v, (readUntilLoop endT l).2.1 = some v → stashBlocks v endT = true := by
  induction l with
  | nil => simp [readUntilLoop]
  | cons r rest ih =>
    obtain ⟨ih1, ih2, ih3⟩ := ih
    by_cases h : stashBlocks r endT = true
    · refine ⟨?_, ?_, ?_⟩ <;> simp [readUntilLoop, h]
    · simp only [Bool.not_eq_true] at h
      refine ⟨?_, ?_, ?_⟩ <;> simp only [readUntilLoop, h, Bool.false_eq_true,
        if_false]
      · intro x hx
        rcases List.mem_cons.mp hx with h1 | h1
        · subst h1; exact h
        · exact ih1 x h1
      · simpa using ih2
      · exact ih3

theorem readUntil_stash_first (s : CursorState) (endT' : Time) (v : IterResult)
    (ha : s.aborted = false) (hs : s.lastIteratorResult = some v)
    (hb : stashBlocks v endT' = false) :
    ∃ rest, (readUntil s endT').1 = some (v :: rest) := by
  simp only [readUntil, ha, Bool.false_eq_true, if_false, hs, hb]
  exact ⟨_, rfl⟩

/-- The state used by the concrete witnesses: a fresh cursor over stamps
at 1, 2, 3, 4 ns. -/
def stampsState : CursorState :=
  ⟨[.stamp ⟨0, 1⟩, .stamp ⟨0, 2⟩, .stamp ⟨0, 3⟩, .stamp ⟨0, 4⟩], none, false⟩

end IteratorCursor

open IteratorCursor in
/-- C3: on a non-aborted cursor, `readUntil(end)` returns an array whose
message events satisfy `receiveTime ≤ end` and whose stamps satisfy
`stamp < end` (both phrased as `stashBlocks … = false`); no item is lost
(the pre-call stash-plus-stream equals the returned items followed by the
post-call stash-plus-stream); the stashed item always exceeds the bound;
and a following `readUntil(end')` whose bound admits the stashed item
returns it as the first element. -/
theorem cursor_readUntil_c3 (s : CursorState) (endT : Time)
    (h : s.aborted = false) :
    ∃ items, (readUntil s endT).1 = some items
      ∧ (∀ r ∈ items, stashBlocks r endT = false)
      ∧ s.lastIteratorResult.toList ++ s.items
          = items ++ (readUntil s endT).2.lastIteratorResult.toList
              ++ (readUntil s endT).2.items
      ∧ (∀ v, (readUntil s endT).2.lastIteratorResult = some v →
          stashBlocks v endT = true)
      ∧ ∀ (endT' : Time) (v : IterResult),
          (readUntil s endT).2.lastIteratorResult = some v →
          stashBlocks v endT' = false →
          ∃ rest, (readUntil (readUntil s endT).2 endT').1 = some (v :: rest) := by
  obtain ⟨hl1, hl2, hl3⟩ := readUntilLoop_spec endT s.items
  simp only [readUntil, h, Bool.false_eq_true, if_false]
  cases hs : s.lastIteratorResult with
  | some v =>
    by_cases hb : stashBlocks v endT = true
    · refine ⟨[], by simp [hb], by simp, ?_, ?_, ?_⟩
      · simp [hb, hs]
      · intro v' hv'
        simp only [hb, if_true] at hv'
        rw [hs] at hv'
        cases hv'
        exact hb
      · intro endT' v' hv' hb'
        simp only [hb, if_true] at hv' ⊢
        exact readUntil_stash_first s endT' v' h hv' hb'
    · simp only [Bool.not_eq_true] at hb
      refine ⟨v :: (readUntilLoop endT s.items).1, by simp [hb], ?_, ?_, ?_, ?_⟩
      · intro r hr
        rcases List.mem_cons.mp hr with h1 | h1
        · subst h1; exact hb
        · exact hl1 r h1
      · simp only [hb, Bool.false_eq_true, if_false, hs]
        simpa using hl2
      · simp only [hb, Bool.false_eq_true, if_false]
        exact fun v' hv' => hl3 v' hv'
      · intro endT' v' hv' hb'
        simp only [hb, Bool.false_eq_true, if_false] at hv' ⊢
        exact readUntil_stash_first
          ⟨(readUntilLoop endT s.items).2.2, (readUntilLoop endT s.items).2.1,
            false⟩ endT' v' rfl hv' hb'
  | none =>
    refine ⟨(readUntilLoop endT s.items).1, rfl, hl1, ?_, ?_, ?_⟩
    · simpa [hs] using hl2
    · exact fun v' hv' => hl3 v' hv'
    · intro endT' v' hv' hb'
      exact readUntil_stash_first _ endT' v' rfl hv' hb'

open IteratorCursor in
/-- Witness for C3 at the stamps-1..4 cursor with bound `(0,2)`. -/
theorem cursor_readUntil_c3_witness :
    stampsState.aborted = false
    ∧ ∃ items, (readUntil stampsState ⟨0, 2⟩).1 = some items
      ∧ (∀ r ∈ items, stashBlocks r ⟨0, 2⟩ = false)
      ∧ stampsState.lastIteratorResult.toList ++ stampsState.items
          = items ++ (readUntil stampsState ⟨0, 2⟩).2.lastIteratorResult.toList
              ++ (readUntil stampsState ⟨0, 2⟩).2.items
      ∧ (∀ v, (readUntil stampsState ⟨0, 2⟩).2.lastIteratorResult = some v →
          stashBlocks v ⟨0, 2⟩ = true)
      ∧ ∀ (endT' : Time) (v : IterResult),
          (readUntil stampsState ⟨0, 2⟩).2.lastIteratorResult = some v →
          stashBlocks v endT' = false →
          ∃ rest, (readUntil (readUntil stampsState ⟨0, 2⟩).2 endT').1
            = some (v :: rest) :=
  ⟨rfl, cursor_readUntil_c3 stampsState ⟨0, 2⟩ rfl⟩

open IteratorCursor in
/-- C4 counterexample: a fresh cursor is ended, then `readUntil` returns
an empty array, not undefined. -/
theorem cursor_end_c4_counterexample :
    (readUntil (endCursor ⟨[IterResult.stamp ⟨0, 1⟩], none, false⟩) ⟨0, 5⟩).1
        = some []
    ∧ (readUntil (endCursor ⟨[IterResult.stamp ⟨0, 1⟩], none, false⟩) ⟨0, 5⟩).1
        ≠ none := by
  decide

open IteratorCursor in
/-- C4 amended: after `end()` has completed, `next()` and
`nextBatch(durationMs)` return undefined, while `readUntil(end)` on a
non-aborted cursor returns an array (empty, or holding only a previously
stashed item) rather than undefined. -/
theorem cursor_end_c4_amended (s : CursorState) (h : s.aborted = false) :
    (next (endCursor s)).1 = none
    ∧ (∀ d, (nextBatch (endCursor s) d).1 = none)
    ∧ ∀ endT, ∃ l, (readUntil (endCursor s) endT).1 = some l := by
  refine ⟨?_, fun d => ?_, fun endT => ?_⟩
  · by_cases ha : s.aborted <;> simp [next, endCursor, ha]
  · by_cases ha : s.aborted <;> simp [nextBatch, next, endCursor, ha]
  · simp only [readUntil, endCursor, h, Bool.false_eq_true, if_false]
    cases s.lastIteratorResult with
    | some v =>
      by_cases hb : stashBlocks v endT = true <;> simp [hb, readUntilLoop]
    | none => exact ⟨_, rfl⟩

open IteratorCursor in
/-- Witness for C4 (amended) at the stamps-1..4 cursor. -/
theorem cursor_end_c4_amended_witness :
    stampsState.aborted = false
    ∧ (next (endCursor stampsState)).1 = none
    ∧ (∀ d, (nextBatch (endCursor stampsState) d).1 = none)
    ∧ ∀ endT, ∃ l, (readUntil (endCursor stampsState) endT).1 = some l :=
  ⟨rfl, cursor_end_c4_amended stampsState rfl⟩

open IteratorCursor in
/-- C10: `nextBatch` resolves to undefined exactly when the cursor is
aborted or the wrapped iterator is already exhausted, and it never
resolves to an empty array. -/
theorem cursor_nextBatch_c10 :
    ∀ (s : CursorState) (d : Int),
      ((nextBatch s d).1 = none ↔ s.aborted = true ∨ s.items = [])
      ∧ (nextBatch s d).1 ≠ some [] := by
  intro s d
  by_cases ha : s.aborted
  · constructor <;> simp [nextBatch, next, ha]
  · cases hi : s.items with
    | nil => constructor <;> simp [nextBatch, next, ha, hi]
    | cons x xs =>
      have hx : ∃ l, (nextBatch s d).1 = some l ∧ l ≠ [] := by
        simp only [nextBatch, next, ha, Bool.false_eq_true, if_false, hi]
        by_cases hp : isProblem x = true
        · exact ⟨[x], by simp [hp], by simp⟩
        · simp only [Bool.not_eq_true] at hp
          simp only [hp, Bool.false_eq_true, if_false]
          exact ⟨_, rfl, by simp⟩
      obtain ⟨l, hl, hne⟩ := hx
      constructor
      · constructor
        · intro hc
          rw [hl] at hc
          cases hc
        · intro hc
          rcases hc with hc | hc
          · exact absurd hc ha
          · exact absurd hc (List.cons_ne_nil x xs)
      · rw [hl]
        intro hc
        exact hne (Option.some.inj hc)

open IteratorCursor in
/-- Witness for C10 at the stamps-1..4 cursor with a 17 ms window. -/
theorem cursor_nextBatch_c10_witness :
    ((nextBatch stampsState 17).1 = none
        ↔ stampsState.aborted = true ∨ stampsState.items = [])
    ∧ (nextBatch stampsState 17).1 ≠ some [] :=
  cursor_nextBatch_c10 stampsState 17

namespace CachedFilelike

/-- The observable outcome of one `CachedFilelike.read(offset, length)`
call: an immediate resolution (no request is enqueued, so the connection
scheduler is not invoked for it), an immediate rejection, or an enqueued
request range handed to the scheduler (the only path that can open an
upstream connection). -/
inductive ReadOutcome where
  | resolved (bytes : List Nat)
  | rejected (message : String)
  | enqueued (start stop : Int)
deriving DecidableEq

/-- `CachedFilelike.read`: zero length resolves to empty bytes before any
other work; negative arguments, a length above the cache size, and a
range past the file size reject; otherwise the request range is queued. -/
def read (cacheSizeInBytes fileSize offset length : Int) : ReadOutcome :=
  if length = 0 then .resolved []
  else if offset < 0 ∨ length < 0 then .rejected "invalid input"
  else if length > cacheSizeInBytes then .rejected "requested more than cache size"
  else if offset + length > fileSize then .rejected "read past size"
  else .enqueued offset (offset + length)

end CachedFilelike

open CachedFilelike in
/-- C5: a zero-length `read` resolves to empty bytes (and is never
enqueued, so no upstream connection is opened for it); a `read` whose
length exceeds the cache size rejects; and a non-zero-length `read` whose
range ends past the file size rejects. -/
theorem cachedFilelike_read_c5 :
    ∀ (cacheSize fileSize offset length : Int),
      CachedFilelike.read cacheSize fileSize offset 0 = .resolved []
      ∧ (0 ≤ cacheSize → length > cacheSize →
          ∃ e, CachedFilelike.read cacheSize fileSize offset length = .rejected e)
      ∧ (length ≠ 0 → offset + length > fileSize →
          ∃ e, CachedFilelike.read cacheSize fileSize offset length = .rejected e) := by
  intro S N o l
  refine ⟨rfl, fun hS hl => ?_, fun hl hof => ?_⟩
  · unfold CachedFilelike.read
    split_ifs
    all_goals first
      | exact ⟨_, rfl⟩
      | (exfalso; omega)
  · unfold CachedFilelike.read
    split_ifs
    all_goals first
      | exact ⟨_, rfl⟩
      | (exfalso; omega)

open CachedFilelike in
/-- Witness for C5 over a file of size 10 with cache size 10. -/
theorem cachedFilelike_read_c5_witness :
    CachedFilelike.read 10 10 3 0 = ReadOutcome.resolved []
    ∧ (0 ≤ (10 : Int) ∧ (11 : Int) > 10
        ∧ ∃ e, CachedFilelike.read 10 10 0 11 = ReadOutcome.rejected e)
    ∧ ((6 : Int) ≠ 0 ∧ (5 : Int) + 6 > 10
        ∧ ∃ e, CachedFilelike.read 10 10 5 6 = ReadOutcome.rejected e) :=
  ⟨(cachedFilelike_read_c5 10 10 3 0).1,
   ⟨by decide, by decide,
    (cachedFilelike_read_c5 10 10 0 11).2.1 (by decide) (by decide)⟩,
   ⟨by decide, by decide,
    (cachedFilelike_read_c5 10 10 5 6).2.2 (by decide) (by decide)⟩⟩

namespace BagIterableSource

/-- One record yielded by the underlying bag reader's iterator. -/
structure BagMsgEvent where
  connectionId : Int
  topic : String
  timestamp : Time
  dataByteLength : Int
deriving DecidableEq

/-- `datatypesByConnectionId.get` on an association list. -/
def lookupConn : List (Int × String) → Int → Option String
  | [], _ => none
  | (k, v) :: rest, q => if k = q then some v else lookupConn rest q

/-- `messageSizeEstimateByTopic[topic]` on an association list
(`undefined` when absent). -/
def lookupEstimate : List (String × Int) → String → Option Int
  | [], _ => none
  | (k, v) :: rest, q => if k = q then some v else lookupEstimate rest q

/-- `Math.max(a, b)` where `b` may be `undefined`: `undefined` coerces to
`NaN`, and `Math.max` with a `NaN` argument returns `NaN` (`none`). -/
def jsMathMax (a : Int) (b : Option Int) : Option Int :=
  match b with
  | some bv => some (max a bv)
  | none => none

/-- `BagIterableSource.messageIterator` over the records the bag iterator
yields: stop past `args.end`, terminate on a missing schema name, skip
records without a reader, otherwise yield a `MessageEvent` whose
`sizeInBytes` is `Math.max(wire length, cached per-topic estimate)`.  The
estimate cache `messageSizeEstimateByTopic` is read here but never
written anywhere in the class, so the class always passes `[]` for it. -/
def messageIterator (readers : List Int) (datatypes : List (Int × String))
    (estimates : List (String × Int)) (endT : Option Time) :
    List BagMsgEvent → List MessageEvent
  | [] => []
  | r :: rest =>
    if (match endT with
        | some e => decide (timeCompare r.timestamp e > 0)
        | none => false) then []
    else
      match lookupConn datatypes r.connectionId with
      | none => []
      | some schemaName =>
        if readers.contains r.connectionId then
          { topic := r.topic, receiveTime := r.timestamp, publishTime := none,
            sizeInBytes := jsMathMax r.dataByteLength
              (lookupEstimate estimates r.topic),
            schemaName := schemaName }
            :: messageIterator readers datatypes estimates endT rest
        else messageIterator readers datatypes estimates endT rest

end BagIterableSource

open BagIterableSource in
/-- C7 (code bug): because `messageSizeEstimateByTopic` is never written,
the cached estimate is always `undefined` and every yielded event's
`sizeInBytes` is `Math.max(wire, undefined) = NaN` (modelled `none`) — not
a non-negative number equal to `max(wire, estimate)`.  The second conjunct
evaluates the failing input: one stored record of wire length 10. -/
theorem bag_sizeInBytes_nan_c7 :
    (∀ (readers : List Int) (datatypes : List (Int × String))
       (endT : Option Time) (records : List BagMsgEvent),
       ((messageIterator readers datatypes [] endT records).map
         fun e => e.sizeInBytes).all Option.isNone = true)
    ∧ (messageIterator [7] [(7, "std_msgs/String")] [] none
        [⟨7, "/a", ⟨0, 1⟩, 10⟩]).map (fun e => e.sizeInBytes) = [none] := by
  refine ⟨fun readers datatypes endT records => ?_, by decide⟩
  induction records with
  | nil => rfl
  | cons r rest ih =>
    simp only [messageIterator]
    split
    · rfl
    · cases lookupConn datatypes r.connectionId with
      | none => rfl
      | some schemaName =>
        by_cases hr : readers.contains r.connectionId
        · simp only [hr, if_true, List.map_cons, List.all_cons, lookupEstimate,
            jsMathMax, Option.isNone_none, Bool.true_and]
          exact ih
        · simp only [hr, Bool.false_eq_true, if_false]
          exact ih

/-- A schema record as `parseChannel` sees it. -/
structure Schema where
  name : String
  encoding : String
  data : List Nat
deriving DecidableEq

/-- The `Channel` input of `parseChannel`. -/
structure Channel where
  messageEncoding : String
  schema : Option Schema
deriving DecidableEq

/-- The well-known empty schema names accepted with an empty body. -/
def KNOWN_EMPTY_SCHEMA_NAMES : List String :=
  ["std_msgs/Empty", "std_msgs/msg/Empty"]

/-- The leading guard of `parseChannel`: a ROS schema with an empty body
is rejected unless its name is well known or the caller opted in
(`channel.schema?.encoding ?? fallback` is the empty string when there is
no schema, which is not a ROS encoding). -/
def emptyRosSchemaRejected (channel : Channel) (allowEmptySchema : Bool) : Bool :=
  !allowEmptySchema
    && (match channel.schema with
        | some s =>
          ["ros1msg", "ros2msg", "ros2idl"].contains s.encoding
            && (s.data.length == 0)
            && !(KNOWN_EMPTY_SCHEMA_NAMES.contains s.name)
        | none => false)

/-- `parseChannel`: reject empty ROS schemas, then dispatch on the message
encoding; only `"cdr"` is supported, and only with schema encodings
`"ros2msg"`, `"ros2idl"` or `"omgidl"`.  The success branch (running the
external IDL/msg parsers and building a reader) is abstracted to `ok ()`:
the settled claims only concern the failure conditions. -/
def parseChannel (channel : Channel) (allowEmptySchema : Bool) :
    Except String Unit :=
  if emptyRosSchemaRejected channel allowEmptySchema then
    .error "schema is empty"
  else if channel.messageEncoding = "cdr" then
    match channel.schema with
    | some s =>
      if s.encoding = "ros2msg" ∨ s.encoding = "ros2idl" ∨ s.encoding = "omgidl"
      then .ok ()
      else .error "unsupported schema encoding for cdr"
    | none => .error "cdr with no schema encoding"
  else .error ("Unsupported encoding " ++ channel.messageEncoding)

theorem except_error_of_ne_ok (r : Except String Unit) (h : r ≠ .ok ()) :
    ∃ e, r = .error e := by
  cases r with
  | error e => exact ⟨e, rfl⟩
  | ok u => cases u; exact absurd rfl h

theorem parseChannel_ok_iff (channel : Channel) (allowEmptySchema : Bool) :
    parseChannel channel allowEmptySchema = .ok () ↔
      emptyRosSchemaRejected channel allowEmptySchema = false
      ∧ channel.messageEncoding = "cdr"
      ∧ ∃ s, channel.schema = some s
          ∧ (s.encoding = "ros2msg" ∨ s.encoding = "ros2idl"
              ∨ s.encoding = "omgidl") := by
  unfold parseChannel
  by_cases hE : emptyRosSchemaRejected channel allowEmptySchema = true
  · simp [hE]
  · simp only [Bool.not_eq_true] at hE
    simp only [hE, Bool.false_eq_true, if_false, true_and]
    by_cases hc : channel.messageEncoding = "cdr"
    · simp only [hc, if_true, true_and]
      cases hs : channel.schema with
      | none => simp
      | some s =>
        by_cases henc : s.encoding = "ros2msg" ∨ s.encoding = "ros2idl"
            ∨ s.encoding = "omgidl"
        · simp [henc]
        · simp [henc]
    · simp [hc]

/-- C8: `parseChannel` fails for every message encoding other than
`"cdr"`; it fails for a channel whose schema encoding is not `"ros2msg"`,
`"ros2idl"` or `"omgidl"` (including a missing schema); and it fails for
a channel whose ROS schema body is empty unless the schema name is a
well-known empty type or the caller passes `allowEmptySchema`. -/
theorem parseChannel_fails_c8 :
    ∀ (channel : Channel) (allowEmptySchema : Bool),
      (channel.messageEncoding ≠ "cdr" →
        ∃ e, parseChannel channel allowEmptySchema = .error e)
      ∧ (∀ s, channel.schema = some s →
          s.encoding ≠ "ros2msg" → s.encoding ≠ "ros2idl" → s.encoding ≠ "omgidl" →
          ∃ e, parseChannel channel allowEmptySchema = .error e)
      ∧ (channel.schema = none →
          ∃ e, parseChannel channel allowEmptySchema = .error e)
      ∧ (∀ s, channel.schema = some s →
          ["ros1msg", "ros2msg", "ros2idl"].contains s.encoding = true →
          s.data = [] → allowEmptySchema = false →
          KNOWN_EMPTY_SCHEMA_NAMES.contains s.name = false →
          ∃ e, parseChannel channel allowEmptySchema = .error e) := by
  intro channel allow
  refine ⟨fun hne => ?_, fun s hs h1 h2 h3 => ?_, fun hs => ?_,
    fun s hs henc hdata hallow hname => ?_⟩
  · refine except_error_of_ne_ok _ fun hok => ?_
    exact hne ((parseChannel_ok_iff channel allow).mp hok).2.1
  · refine except_error_of_ne_ok _ fun hok => ?_
    obtain ⟨-, -, s', hs', henc⟩ := (parseChannel_ok_iff channel allow).mp hok
    rw [hs] at hs'
    cases hs'
    rcases henc with h | h | h
    · exact h1 h
    · exact h2 h
    · exact h3 h
  · refine except_error_of_ne_ok _ fun hok => ?_
    obtain ⟨-, -, s', hs', -⟩ := (parseChannel_ok_iff channel allow).mp hok
    rw [hs] at hs'
    cases hs'
  · refine except_error_of_ne_ok _ fun hok => ?_
    obtain ⟨hrej, -, -⟩ := (parseChannel_ok_iff channel allow).mp hok
    rw [emptyRosSchemaRejected, hallow, hs] at hrej
    simp only [henc, hdata, hname] at hrej
    simp at hrej

/-- Witness for C8: a protobuf channel, a cdr channel with a JSON schema,
a cdr channel with no schema, and a cdr channel with an empty `ros2msg`
schema body under a non-well-known name. -/
theorem parseChannel_fails_c8_witness :
    (∃ e, parseChannel ⟨"protobuf", none⟩ false = .error e)
    ∧ (∃ e, parseChannel ⟨"cdr", some ⟨"X", "jsonschema", [1]⟩⟩ false = .error e)
    ∧ (∃ e, parseChannel ⟨"cdr", none⟩ false = .error e)
    ∧ (∃ e, parseChannel ⟨"cdr", some ⟨"pkg/Msg", "ros2msg", []⟩⟩ false
        = .error e) :=
  ⟨(parseChannel_fails_c8 ⟨"protobuf", none⟩ false).1 (by decide),
   (parseChannel_fails_c8 ⟨"cdr", some ⟨"X", "jsonschema", [1]⟩⟩ false).2.1
     ⟨"X", "jsonschema", [1]⟩ rfl (by decide) (by decide) (by decide),
   (parseChannel_fails_c8 ⟨"cdr", none⟩ false).2.2.1 rfl,
   (parseChannel_fails_c8 ⟨"cdr", some ⟨"pkg/Msg", "ros2msg", []⟩⟩ false).2.2.2
     ⟨"pkg/Msg", "ros2msg", []⟩ rfl (by decide) rfl rfl (by decide)⟩

/-- The smallest power of two that is at least `n`:
`2 ** Math.ceil(Math.log2 n)` for positive `n`, computed exactly. -/
def nextPow2 (n : Nat) : Nat :=
  if n ≤ 1 then 1 else 2 * nextPow2 ((n + 1) / 2)
decreasing_by omega

/-- The slow-properties dictionary estimate of `estimateObjectSize`:
`16 + 5*8 + 2 ** Math.ceil(Math.log2((numProps + 2) * 1.5)) * 3 * 4`,
with the power of two computed exactly as the least one at least
`3 * (numProps + 2) / 2`. -/
def propertiesDictSize (numProps : Nat) : Int :=
  16 + 5 * 8 + (nextPow2 ((3 * (numProps + 2) + 1) / 2) : Int) * 3 * 4

/-- A JS value as `estimateObjectSize` discriminates it: `null`,
`undefined`, booleans, numbers (a rational; `Number.isInteger` is
denominator one), bigints, strings, arrays, typed-array views (only the
byte length matters), sets, maps, plain objects, functions and symbols. -/
inductive JSValue where
  | vnull
  | vundefined
  | vbool (b : Bool)
  | vnum (q : ℚ)
  | vbigint
  | vstr (s : String)
  | varr (elems : List JSValue)
  | vtyped (byteLength : Nat)
  | vset (elems : List JSValue)
  | vmap (entries : List (JSValue × JSValue))
  | vobj (fields : List (String × JSValue))
  | vfunc
  | vsym

mutual

/-- `estimateObjectSize`: sizes in bytes per the V8-informed constants
(`SMALL_INTEGER_SIZE = 4`, `HEAP_NUMBER_SIZE = 8 + 2*4 = 16`, `OBJECT_BASE_SIZE =
12`, `ARRAY_BASE_SIZE = 24`, `TYPED_ARRAY_BASE_SIZE = 100`,
`MAX_NUM_FAST_PROPERTIES = 1020`); functions and symbols throw. -/
def estimateObjectSize : JSValue → Except String Int
  | .vnull => .ok 4
  | .vundefined => .ok 4
  | .vbool _ => .ok 4
  | .vnum q => .ok (if q.den = 1 then 4 else 16)
  | .vbigint => .ok 16
  | .vstr s => .ok (4 + 12 + 4 * (((s.length + 3) / 4 : Nat) : Int))
  | .varr elems =>
    match estimateValues elems with
    | .ok t => .ok (4 + 24 + t)
    | .error e => .error e
  | .vtyped byteLength => .ok (100 + (byteLength : Int))
  | .vset elems =>
    match estimateValues elems with
    | .ok t => .ok (4 + 12 + t)
    | .error e => .error e
  | .vmap entries =>
    match estimateEntries entries with
    | .ok t => .ok (4 + 12 + t)
    | .error e => .error e
  | .vobj fields =>
    match estimateFields fields with
    | .ok t =>
      .ok (12
        + (if fields.length > 1020 then
            propertiesDictSize fields.length - (fields.length : Int) * 4
          else 0)
        + t)
    | .error e => .error e
  | .vfunc => .error "cannot estimate size of type function"
  | .vsym => .error "cannot estimate size of type symbol"

/-- The left fold over `Object.values`: sum of element estimates, first
error wins. -/
def estimateValues : List JSValue → Except String Int
  | [] => .ok 0
  | v :: rest =>
    match estimateObjectSize v with
    | .ok a =>
      match estimateValues rest with
      | .ok b => .ok (a + b)
      | .error e => .error e
    | .error e => .error e

/-- The fold over `Map.entries`: key estimate plus value estimate. -/
def estimateEntries : List (JSValue × JSValue) → Except String Int
  | [] => .ok 0
  | kv :: rest =>
    match estimateObjectSize kv.1 with
    | .ok a =>
      match estimateObjectSize kv.2 with
      | .ok b =>
        match estimateEntries rest with
        | .ok c => .ok (a + b + c)
        | .error e => .error e
      | .error e => .error e
    | .error e => .error e

/-- The fold over a plain object's property values. -/
def estimateFields : List (String × JSValue) → Except String Int
  | [] => .ok 0
  | f :: rest =>
    match estimateObjectSize f.2 with
    | .ok a =>
      match estimateFields rest with
      | .ok b => .ok (a + b)
      | .error e => .error e
    | .error e => .error e

end

/-- The claim's "small range" for pointer-tagged integers: an integer
representable in 31 bits. -/
def specSmallInteger (q : ℚ) : Prop :=
  q.den = 1 ∧ -(2 ^ 31 : ℚ) ≤ q ∧ q < 2 ^ 31

/-- C9 counterexample: `2 ^ 40` is an integer outside any 31-bit small
range, so the claim assigns it 12 bytes as an "other number", but the
code tests only `Number.isInteger` and returns 4; moreover the claimed
12 bytes for non-integer numbers and bigints is wrong: the source
computes `HEAP_NUMBER_SIZE = 8 + 2 * COMPRESSED_POINTER_SIZE = 16`. -/
theorem estimateObjectSize_c9_counterexample :
    estimateObjectSize (.vnum ((2 : ℚ) ^ 40)) = .ok 4
    ∧ estimateObjectSize (.vnum ((2 : ℚ) ^ 40)) ≠ .ok 12
    ∧ ¬ specSmallInteger ((2 : ℚ) ^ 40)
    ∧ estimateObjectSize (.vnum ((1 : ℚ) / 2)) = .ok 16
    ∧ estimateObjectSize (.vnum ((1 : ℚ) / 2)) ≠ .ok 12
    ∧ estimateObjectSize .vbigint = .ok 16
    ∧ estimateObjectSize .vbigint ≠ .ok 12 := by
  have hden : ((2 : ℚ) ^ 40).den = 1 := by
    norm_num
  have hden2 : ((1 : ℚ) / 2).den = 2 := by
    norm_num
  refine ⟨?_, ?_, ?_, ?_, ?_, rfl, by simp [estimateObjectSize]⟩
  · simp [estimateObjectSize, hden]
  · simp [estimateObjectSize, hden]
  · rintro ⟨-, -, hlt⟩
    norm_num at hlt
  · simp [estimateObjectSize, hden2]
  · simp [estimateObjectSize, hden2]

/-- C9 amended: `estimateObjectSize` returns 4 for null, undefined,
booleans, and every integer number regardless of magnitude
(`Number.isInteger`); 16 (`HEAP_NUMBER_SIZE = 8 + 2*4`) for non-integer
numbers and for bigints; `4 + 12 + 4·ceil(L/4)` for a string of length
`L`; `100 + byteLength` for a typed array view; `4 + 24` plus the sum of
element estimates for an array; and it throws for functions and
symbols. -/
theorem estimateObjectSize_c9_amended :
    estimateObjectSize .vnull = .ok 4
    ∧ estimateObjectSize .vundefined = .ok 4
    ∧ (∀ b, estimateObjectSize (.vbool b) = .ok 4)
    ∧ (∀ q : ℚ, estimateObjectSize (.vnum q)
        = .ok (if q.den = 1 then 4 else 16))
    ∧ estimateObjectSize .vbigint = .ok 16
    ∧ (∀ s : String, estimateObjectSize (.vstr s)
        = .ok (4 + 12 + 4 * (((s.length + 3) / 4 : Nat) : Int)))
    ∧ (∀ n : Nat, estimateObjectSize (.vtyped n) = .ok (100 + (n : Int)))
    ∧ (∀ elems, estimateObjectSize (.varr elems)
        = (estimateValues elems).map fun t => 4 + 24 + t)
    ∧ (∃ e, estimateObjectSize .vfunc = .error e)
    ∧ (∃ e, estimateObjectSize .vsym = .error e) := by
  refine ⟨rfl, rfl, fun b => rfl, fun q => rfl, rfl, fun s => rfl, fun n => rfl,
    fun elems => ?_, ⟨_, rfl⟩, ⟨_, rfl⟩⟩
  cases h : estimateValues elems <;> simp [estimateObjectSize, h, Except.map]

/-- A half-open byte range `[start, stop)`. -/
structure Range where
  start : Nat
  stop : Nat
deriving DecidableEq

/-- Clip `r` to `bounds`: the `intersect([bounds], ranges)` step of
`missingRanges`; an empty intersection is dropped. -/
def clipTo (bounds r : Range) : Option Range :=
  if max r.start bounds.start < min r.stop bounds.stop then
    some ⟨max r.start bounds.start, min r.stop bounds.stop⟩
  else none

/-- `intersect([bounds], ranges)` for a sorted disjoint `ranges`. -/
def intersectClip (bounds : Range) (ranges : List Range) : List Range :=
  ranges.filterMap (clipTo bounds)

/-- The `complement(bounds, ranges)` walk over sorted disjoint ranges:
emit the gap before each range, advance the cursor, and close with the
tail gap up to `bounds.stop`. -/
def complementIn (bounds : Range) (cur : Nat) : List Range → List Range
  | [] => if cur < bounds.stop then [⟨cur, bounds.stop⟩] else []
  | r :: rest =>
    if cur < r.start then
      ⟨cur, r.start⟩ :: complementIn bounds (max cur r.stop) rest
    else complementIn bounds (max cur r.stop) rest

/-- `missingRanges(bounds, ranges) = complement(bounds,
intersect([bounds], ranges))`: the sub-ranges of `bounds` not covered by
`ranges` (which are clipped to `bounds` first). -/
def missingRanges (bounds : Range) (ranges : List Range) : List Range :=
  complementIn bounds bounds.start (intersectClip bounds ranges)

/-- intervals-fn `isOverlapping` on two interval lists: some pair of
half-open intervals strictly overlaps. -/
def rangesOverlap (a b : Range) : Bool := a.start < b.stop && b.start < a.stop

/-- intervals-fn `isOverlapping` lifted to lists. -/
def isOverlapping (as bs : List Range) : Bool :=
  as.any fun a => bs.any fun b => rangesOverlap a b

/-- The `startNewConnection` boolean of
`getNewConnectionWithExistingReadRequest`: no current connection, or no
overlap between the not-downloaded ranges and the current connection, or
the current connection would take too long to reach the first
not-downloaded range. -/
def startNewConnectionB (c? : Option Range) (nd : List Range)
    (n0start threshold : Nat) : Bool :=
  match c? with
  | none => true
  | some c => !isOverlapping nd [c] || decide (c.start + threshold < n0start)

/-- `getNewConnectionWithExistingReadRequest`: guard the request size,
compute the not-yet-downloaded portion of the request, decide whether to
open a new connection, and pick its range (whole-file tail when the cache
covers the file, read-ahead extension when the first missing piece ends
the request, else the first missing piece). -/
def getNewConnectionWithExistingReadRequest
    (currentRemainingRange : Option Range) (readRequestRange : Range)
    (downloadedRanges : List Range)
    (maxRequestSize fileSize continueDownloadingThreshold : Nat) :
    Except String (Option Range) :=
  if readRequestRange.stop - readRequestRange.start > maxRequestSize then
    .error "range exceeds max request size"
  else
    match missingRanges readRequestRange downloadedRanges with
    | [] => .error "read request fully downloaded"
    | n0 :: rest =>
      if !startNewConnectionB currentRemainingRange (n0 :: rest) n0.start
          continueDownloadingThreshold then .ok none
      else if maxRequestSize ≥ fileSize then
        .ok (missingRanges ⟨n0.start, fileSize⟩ downloadedRanges).head?
      else if n0.stop = readRequestRange.stop then
        .ok (some ⟨n0.start,
          min (readRequestRange.start + maxRequestSize) fileSize⟩)
      else .ok (some n0)

/-- Claim-side condition for opening a new connection: no current
connection, or the current connection's remaining range does not overlap
the missing portion, or it would take too long to drift to the first
missing piece. -/
def specShouldOpen (c? : Option Range) (n0 : Range) (nd : List Range)
    (threshold : Nat) : Prop :=
  match c? with
  | none => True
  | some c =>
    (∀ n ∈ n0 :: nd, ¬(c.start < n.stop ∧ n.start < c.stop))
      ∨ c.start + threshold < n0.start

/-- Claim-side description of the range a new connection downloads. -/
def specTarget (r : Range) (ds : List Range) (maxRequestSize fileSize : Nat)
    (n0 : Range) : Option Range :=
  if maxRequestSize ≥ fileSize then
    (missingRanges ⟨n0.start, fileSize⟩ ds).head?
  else if n0.stop = r.stop then
    some ⟨n0.start, min (r.start + maxRequestSize) fileSize⟩
  else some n0

theorem clipTo_wf (bounds d p : Range) (h : clipTo bounds d = some p) :
    p.start < p.stop ∧ p.stop ≤ bounds.stop ∧ d.start ≤ p.start
      ∧ p.stop ≤ d.stop := by
  unfold clipTo at h
  split_ifs at h with hlt
  cases h
  exact ⟨hlt, min_le_right _ _, le_max_left _ _, min_le_left _ _⟩

theorem intersectClip_wf (bounds : Range) (ds : List Range) :
    ∀ p ∈ intersectClip bounds ds, p.start < p.stop ∧ p.stop ≤ bounds.stop := by
  intro p hp
  rw [intersectClip, List.mem_filterMap] at hp
  obtain ⟨d, -, hd⟩ := hp
  exact ⟨(clipTo_wf bounds d p hd).1, (clipTo_wf bounds d p hd).2.1⟩

theorem intersectClip_pairwise (bounds : Range) (ds : List Range)
    (h : ds.Pairwise fun a b => a.stop ≤ b.start) :
    (intersectClip bounds ds).Pairwise fun a b => a.stop ≤ b.start := by
  refine List.Pairwise.filterMap (clipTo bounds) ?_ h
  intro a a' hle p hp p' hp'
  have h1 := clipTo_wf bounds a p (Option.mem_def.mp hp)
  have h2 := clipTo_wf bounds a' p' (Option.mem_def.mp hp')
  omega

theorem complementIn_start_le (bounds : Range) (cur : Nat) (l : List Range) :
    ∀ g ∈ complementIn bounds cur l, cur ≤ g.start := by
  induction l generalizing cur with
  | nil =>
    intro g hg
    unfold complementIn at hg
    split_ifs at hg with h
    · rcases List.mem_singleton.mp hg with rfl
      exact le_refl _
    · cases hg
  | cons d rest ih =>
    intro g hg
    unfold complementIn at hg
    split_ifs at hg with h
    · rcases List.mem_cons.mp hg with h1 | h1
      · subst h1; exact le_refl _
      · exact le_trans (le_max_left _ _) (ih _ g h1)
    · exact le_trans (le_max_left _ _) (ih _ g hg)

theorem complementIn_wf (bounds : Range) (cur : Nat) (l : List Range) :
    (∀ p ∈ l, p.start < p.stop ∧ p.stop ≤ bounds.stop) →
    ∀ g ∈ complementIn bounds cur l, g.start < g.stop ∧ g.stop ≤ bounds.stop := by
  induction l generalizing cur with
  | nil =>
    intro _ g hg
    unfold complementIn at hg
    split_ifs at hg with h
    · rcases List.mem_singleton.mp hg with rfl
      exact ⟨h, le_refl _⟩
    · cases hg
  | cons d rest ih =>
    intro hl g hg
    have hd := hl d (List.mem_cons_self d rest)
    have hrest : ∀ p ∈ rest, p.start < p.stop ∧ p.stop ≤ bounds.stop :=
      fun p hp => hl p (List.mem_cons_of_mem d hp)
    unfold complementIn at hg
    split_ifs at hg with h
    · rcases List.mem_cons.mp hg with h1 | h1
      · subst h1
        refine ⟨h, ?_⟩
        dsimp only
        omega
      · exact ih _ hrest g h1
    · exact ih _ hrest g hg

theorem complementIn_uncovered (bounds : Range) (cur : Nat) (l : List Range) :
    l.Pairwise (fun a b => a.stop ≤ b.start) →
    (∀ p ∈ l, p.start < p.stop) →
    ∀ g ∈ complementIn bounds cur l, ∀ p ∈ l,
      ¬(p.start ≤ g.start ∧ g.start < p.stop) := by
  induction l generalizing cur with
  | nil =>
    intro _ _ g hg p hp
    cases hp
  | cons d rest ih =>
    intro hpw hl g hg p hp
    rw [List.pairwise_cons] at hpw
    obtain ⟨hd_rest, hpw_rest⟩ := hpw
    have hdwf := hl d (List.mem_cons_self d rest)
    have hlrest : ∀ p ∈ rest, p.start < p.stop :=
      fun p hp => hl p (List.mem_cons_of_mem d hp)
    unfold complementIn at hg
    split_ifs at hg with h
    · rcases List.mem_cons.mp hg with h1 | h1
      · subst h1
        rcases List.mem_cons.mp hp with h2 | h2
        · subst h2
          rintro ⟨ha, hb⟩
          dsimp only at ha hb
          omega
        · have := hd_rest p h2
          rintro ⟨ha, hb⟩
          dsimp only at ha hb
          omega
      · have hg_start := complementIn_start_le bounds (max cur d.stop) rest g h1
        rcases List.mem_cons.mp hp with h2 | h2
        · subst h2
          rintro ⟨ha, hb⟩
          omega
        · exact ih _ hpw_rest hlrest g h1 p h2
    · have hg_start := complementIn_start_le bounds (max cur d.stop) rest g hg
      rcases List.mem_cons.mp hp with h2 | h2
      · subst h2
        rintro ⟨ha, hb⟩
        omega
      · exact ih _ hpw_rest hlrest g hg p h2

theorem complementIn_ne_nil (bounds : Range) (cur : Nat)
    (hcur : cur < bounds.stop) :
    ∀ l : List Range, (∀ p ∈ l, ¬(p.start ≤ cur ∧ cur < p.stop)) →
      complementIn bounds cur l ≠ [] := by
  intro l
  induction l with
  | nil =>
    intro _
    unfold complementIn
    rw [if_pos hcur]
    exact List.cons_ne_nil _ _
  | cons d rest ih =>
    intro hnc
    unfold complementIn
    split_ifs with h
    · exact List.cons_ne_nil _ _
    · have hd := hnc d (List.mem_cons_self d rest)
      have hstop : d.stop ≤ cur := by omega
      have hmax : max cur d.stop = cur := by omega
      rw [hmax]
      exact ih fun p hp => hnc p (List.mem_cons_of_mem d hp)

theorem startNewConnectionB_iff (c? : Option Range) (n0 : Range)
    (nd : List Range) (threshold : Nat) :
    startNewConnectionB c? (n0 :: nd) n0.start threshold = true
      ↔ specShouldOpen c? n0 nd threshold := by
  cases c? with
  | none => simp [startNewConnectionB, specShouldOpen]
  | some c =>
    show (!isOverlapping (n0 :: nd) [c]
        || decide (c.start + threshold < n0.start)) = true ↔ _
    have hov : isOverlapping (n0 :: nd) [c] = true
        ↔ ∃ n ∈ n0 :: nd, c.start < n.stop ∧ n.start < c.stop := by
      rw [isOverlapping, List.any_eq_true]
      constructor
      · rintro ⟨n, hn, hb⟩
        rw [List.any_eq_true] at hb
        obtain ⟨b, hbmem, hbo⟩ := hb
        rw [List.mem_singleton] at hbmem
        subst hbmem
        rw [rangesOverlap, Bool.and_eq_true, decide_eq_true_eq,
          decide_eq_true_eq] at hbo
        exact ⟨n, hn, hbo.2, hbo.1⟩
      · rintro ⟨n, hn, h1, h2⟩
        refine ⟨n, hn, ?_⟩
        rw [List.any_eq_true]
        refine ⟨c, List.mem_singleton.mpr rfl, ?_⟩
        rw [rangesOverlap, Bool.and_eq_true, decide_eq_true_eq,
          decide_eq_true_eq]
        exact ⟨h2, h1⟩
    rw [Bool.or_eq_true, Bool.not_eq_true', decide_eq_true_eq]
    show _ ↔ (∀ n ∈ n0 :: nd, ¬(c.start < n.stop ∧ n.start < c.stop))
      ∨ c.start + threshold < n0.start
    rw [Bool.eq_false_iff, Ne, hov]
    push_neg
    rfl

/-- C6: when a pending read request `R` (within the size cap and the
file) has a non-empty missing portion `N` over sorted disjoint downloaded
ranges, `getNewConnectionWithExistingReadRequest` returns a new
connection range exactly when there is no current connection, or the
current connection does not overlap `N`, or
`C.start + threshold < N[0].start`; and the returned range is the first
missing sub-range of `[N[0].start, fileSize)` when
`maxRequestSize ≥ fileSize`, otherwise `N[0]` extended to
`min(R.start + maxRequestSize, fileSize)` when `N[0].end = R.end`, and
otherwise exactly `N[0]`. -/
theorem getNewConnection_c6
    (c? : Option Range) (r : Range) (ds : List Range)
    (maxRequestSize fileSize threshold : Nat)
    (hpair : ds.Pairwise fun a b => a.stop ≤ b.start)
    (hsize : r.stop - r.start ≤ maxRequestSize)
    (hfile : r.stop ≤ fileSize)
    (n0 : Range) (nd : List Range)
    (hmiss : missingRanges r ds = n0 :: nd) :
    (¬ specShouldOpen c? n0 nd threshold →
      getNewConnectionWithExistingReadRequest c? r ds maxRequestSize fileSize
        threshold = .ok none)
    ∧ (specShouldOpen c? n0 nd threshold →
      ∃ rg, getNewConnectionWithExistingReadRequest c? r ds maxRequestSize
          fileSize threshold = .ok (some rg)
        ∧ specTarget r ds maxRequestSize fileSize n0 = some rg) := by
  have hclip_wf := intersectClip_wf r ds
  have hn0 : n0 ∈ missingRanges r ds := by
    rw [hmiss]
    exact List.mem_cons_self _ _
  have hn0wf : n0.start < n0.stop ∧ n0.stop ≤ r.stop :=
    complementIn_wf r r.start (intersectClip r ds) hclip_wf n0 hn0
  have hstart_le : r.start ≤ n0.start :=
    complementIn_start_le r r.start (intersectClip r ds) n0 hn0
  have hn0_unc := complementIn_uncovered r r.start (intersectClip r ds)
    (intersectClip_pairwise r ds hpair) (fun p hp => (hclip_wf p hp).1) n0 hn0
  have hds_unc : ∀ d ∈ ds, ¬(d.start ≤ n0.start ∧ n0.start < d.stop) := by
    rintro d hd ⟨hc1, hc2⟩
    have hcond : max d.start r.start < min d.stop r.stop := by omega
    have hclip : clipTo r d
        = some ⟨max d.start r.start, min d.stop r.stop⟩ := by
      unfold clipTo
      rw [if_pos hcond]
    have hqmem : (⟨max d.start r.start, min d.stop r.stop⟩ : Range)
        ∈ intersectClip r ds :=
      List.mem_filterMap.mpr ⟨d, hd, hclip⟩
    refine hn0_unc _ hqmem ⟨?_, ?_⟩ <;> dsimp only <;> omega
  have hb2 : missingRanges ⟨n0.start, fileSize⟩ ds ≠ [] := by
    unfold missingRanges
    refine complementIn_ne_nil ⟨n0.start, fileSize⟩ n0.start ?_ _ ?_
    · dsimp only
      omega
    · rintro p hp ⟨hc1, hc2⟩
      rw [intersectClip, List.mem_filterMap] at hp
      obtain ⟨d, hd, hcl⟩ := hp
      have h4 := clipTo_wf _ d p hcl
      exact hds_unc d hd ⟨by omega, by omega⟩
  have hunfold : getNewConnectionWithExistingReadRequest c? r ds maxRequestSize
      fileSize threshold
      = (if !startNewConnectionB c? (n0 :: nd) n0.start threshold then
          Except.ok none
        else if maxRequestSize ≥ fileSize then
          .ok (missingRanges ⟨n0.start, fileSize⟩ ds).head?
        else if n0.stop = r.stop then
          .ok (some ⟨n0.start, min (r.start + maxRequestSize) fileSize⟩)
        else .ok (some n0)) := by
    unfold getNewConnectionWithExistingReadRequest
    rw [if_neg (show ¬(r.stop - r.start > maxRequestSize) by omega)]
    rw [hmiss]
  constructor
  · intro hno
    rw [hunfold]
    have hbf : startNewConnectionB c? (n0 :: nd) n0.start threshold = false := by
      rcases Bool.eq_false_or_eq_true
          (startNewConnectionB c? (n0 :: nd) n0.start threshold) with h | h
      · exact absurd ((startNewConnectionB_iff c? n0 nd threshold).mp h) hno
      · exact h
    rw [hbf]
    rfl
  · intro hyes
    rw [hunfold]
    have hbt : startNewConnectionB c? (n0 :: nd) n0.start threshold = true :=
      (startNewConnectionB_iff c? n0 nd threshold).mpr hyes
    rw [hbt]
    simp only [Bool.not_true, Bool.false_eq_true, if_false]
    unfold specTarget
    by_cases h1 : maxRequestSize ≥ fileSize
    · rw [if_pos h1, if_pos h1]
      cases hM : missingRanges ⟨n0.start, fileSize⟩ ds with
      | nil => exact absurd hM hb2
      | cons a l => exact ⟨a, rfl, rfl⟩
    · rw [if_neg h1, if_neg h1]
      by_cases h2 : n0.stop = r.stop
      · rw [if_pos h2, if_pos h2]
        exact ⟨_, rfl, rfl⟩
      · rw [if_neg h2, if_neg h2]
        exact ⟨_, rfl, rfl⟩

/-- Witness for C6: file of size 10, downloaded `[0,5)`, request `[0,10)`,
cache 100, threshold 5, no current connection: the missing portion is
`[[5,10)]` and the returned range is `[5,10)`. -/
theorem getNewConnection_c6_witness :
    ([(⟨0, 5⟩ : Range)].Pairwise fun a b => a.stop ≤ b.start)
    ∧ (⟨0, 10⟩ : Range).stop - (⟨0, 10⟩ : Range).start ≤ 100
    ∧ (⟨0, 10⟩ : Range).stop ≤ 10
    ∧ missingRanges ⟨0, 10⟩ [⟨0, 5⟩] = [⟨5, 10⟩]
    ∧ ((¬ specShouldOpen none ⟨5, 10⟩ [] 5 →
        getNewConnectionWithExistingReadRequest none ⟨0, 10⟩ [⟨0, 5⟩] 100 10 5
          = .ok none)
      ∧ (specShouldOpen none ⟨5, 10⟩ [] 5 →
        ∃ rg, getNewConnectionWithExistingReadRequest none ⟨0, 10⟩ [⟨0, 5⟩]
            100 10 5 = .ok (some rg)
          ∧ specTarget ⟨0, 10⟩ [⟨0, 5⟩] 100 10 ⟨5, 10⟩ = some rg)) :=
  ⟨by decide, by decide, by decide, by decide,
   getNewConnection_c6 none ⟨0, 10⟩ [⟨0, 5⟩] 100 10 5 (by decide) (by decide)
     (by decide) ⟨5, 10⟩ [] (by decide)⟩

end Studio
